import Mathlib

set_option autoImplicit false

deriving instance DecidableEq for Except

/-
Verification of the go-coin validation-and-mining core.

The Go source (types.go, node.go) is shallowly embedded below:
  - byte slices become lists of naturals below 256;
  - uint32 arithmetic is Nat arithmetic with explicit reduction mod 2^32
    (u32add, u32sub) at exactly the operations the Go code performs on
    uint32 values; struct fields hold the Nat value of the uint32;
  - sha256, the compressed-point encoding of a public key, time.Time text
    marshalling, ecdsa.Sign and ecdsa.Verify are opaque to the validator and
    miner, so they are passed in as explicit function parameters (H, encPub,
    timeEnc, Sign, V); theorems quantify over them;
  - time.Time becomes a Nat instant, t1.After(t2) becomes t2 < t1, and the
    wall clock reads (time.Now()) are passed in explicitly: the single read
    in verifyExceptNonce as the parameter now, the per-iteration read in
    Mine as a clock indexed by the iteration number;
  - the Go map keyed by hex.EncodeToString(bodyHash) becomes an association
    list keyed by the bodyHash bytes themselves, consed at the front so a
    later insert shadows an earlier one, matching map overwrite semantics
    (hex encoding is injective on byte slices, so the keys coincide);
  - each fmt.Errorf return site becomes one constructor of VErr, in source
    order;
  - the unbounded Go mining loop becomes a fuel recursion with fuel 2^32,
    the size of the nonce space; the fuelOut result is an artifact of the
    embedding and is proved unreachable from Mine, whose loop always exits
    via the wrap-around check first.
-/

namespace GoCoin

/-- Byte strings: lists of naturals, each below 256 in any real execution. -/
abbrev Bytes := List Nat

/-- Size of the uint32 value space. -/
def U32 : Nat := 2 ^ 32

/-- Go uint32 addition. -/
def u32add (a b : Nat) : Nat := (a + b) % U32

/-- Go uint32 subtraction (two's-complement wraparound). -/
def u32sub (a b : Nat) : Nat := (a % U32 + U32 - b % U32) % U32

/-- Little-endian 4-byte encoding, as binary.Write with binary.LittleEndian
on a uint32. -/
def u32le (n : Nat) : Bytes :=
  [n % 256, n / 2 ^ 8 % 256, n / 2 ^ 16 % 256, n / 2 ^ 24 % 256]

/-- Abstract ecdsa public key (the validator only passes it to V). -/
abbrev PubKey := Nat

/-- Abstract ecdsa private key (only passed to the Sign parameter). -/
abbrev PrivKey := Nat

/-- time.Time instant; Go t1.After(t2) is embedded as t2 < t1. -/
abbrev Time := Nat

/-- OwnerSignature from types.go: the (R, S) pair of an ecdsa signature. -/
structure OwnerSignature where
  R : Int
  S : Int
deriving DecidableEq

/-- TransactionBody from types.go. InputValue, Change, Fee are uint32. -/
structure TransactionBody where
  inputTransactionHashes : List Bytes
  nextOwner : PubKey
  inputValue : Nat
  change : Nat
  fee : Nat
deriving DecidableEq

/-- Transaction from types.go, including the unexported isCoinbase flag. -/
structure Transaction where
  body : TransactionBody
  bodyHash : Bytes
  ownerSignatures : List OwnerSignature
  isCoinbase : Bool
deriving DecidableEq

/-- TransactionBody.hash from types.go: sha256 over every input hash in
order, the compressed-point encoding of nextOwner, then inputValue, change,
fee in 4-byte little-endian.  H is sha256, encPub is
elliptic.MarshalCompressed. -/
def transactionHash (H : Bytes → Bytes) (encPub : PubKey → Bytes)
    (t : TransactionBody) : Bytes :=
  H (t.inputTransactionHashes.flatten ++ encPub t.nextOwner ++
     u32le t.inputValue ++ u32le t.change ++ u32le t.fee)

/-- NewTransaction from types.go: hashes the body, then signs the body hash
once per element of privs (ecdsa.Sign is the Sign parameter; its randomness
is irrelevant to the claims, so it is embedded as a function of the key and
the digest).  Note the Go code runs the signing loop whether or not
isCoinbase is set. -/
def NewTransaction (H : Bytes → Bytes) (encPub : PubKey → Bytes)
    (Sign : PrivKey → Bytes → OwnerSignature)
    (body : TransactionBody) (privs : List PrivKey) (isCoinbase : Bool) :
    Transaction :=
  let bodyHash := transactionHash H encPub body
  { body := body
    bodyHash := bodyHash
    ownerSignatures := privs.map (fun priv => Sign priv bodyHash)
    isCoinbase := isCoinbase }

/-- Transaction.OutputValue from types.go.  The two subtractions are uint32
subtractions, left associated as in the Go expression. -/
def Transaction.OutputValue (t : Transaction) : Nat :=
  if !t.isCoinbase then u32sub (u32sub t.body.inputValue t.body.change) t.body.fee
  else t.body.inputValue

/-- BlockBody from types.go.  Version, Id, Nonce are uint32. -/
structure BlockBody where
  version : Nat
  id : Nat
  prevHash : Bytes
  transactions : List Transaction
  nonce : Nat
  time : Time
deriving DecidableEq

/-- CurrentVersion from types.go. -/
def CurrentVersion : Nat := 1

/-- GenesisId from node.go. -/
def GenesisId : Nat := 0

/-- MinimumRequiredLeadingZeros from node.go. -/
def MinimumRequiredLeadingZeros : Nat := 1

/-- MiningReward from node.go. -/
def MiningReward : Nat := 10

/-- BlockBody.staticHash from types.go: sha256 over version and id in
4-byte little-endian, the raw prevHash bytes, then each transaction's
bodyHash in list order; nonce and time are skipped. -/
def BlockBody.staticHash (H : Bytes → Bytes) (b : BlockBody) : Bytes :=
  H (u32le b.version ++ u32le b.id ++ b.prevHash ++
     (b.transactions.map (fun t => t.bodyHash)).flatten)

/-- calculateBodyHash from types.go: sha256 over the static hash bytes, the
nonce in 4-byte little-endian, then the text encoding of the timestamp
(time.MarshalText is the timeEnc parameter). -/
def calculateBodyHash (H : Bytes → Bytes) (timeEnc : Time → Bytes)
    (bodyStaticHash : Bytes) (nonce : Nat) (time : Time) : Bytes :=
  H (bodyStaticHash ++ u32le nonce ++ timeEnc time)

/-- Block from types.go, with the unexported cached bodyStaticHash. -/
structure Block where
  body : BlockBody
  bodyHash : Bytes
  bodyStaticHash : Bytes
deriving DecidableEq

/-- NewBlock from types.go: computes the static hash of the body, then the
full body hash from it and the body's current nonce and time. -/
def NewBlock (H : Bytes → Bytes) (timeEnc : Time → Bytes)
    (body : BlockBody) : Block :=
  let bodyStaticHash := body.staticHash H
  { body := body
    bodyHash := calculateBodyHash H timeEnc bodyStaticHash body.nonce body.time
    bodyStaticHash := bodyStaticHash }

/-- Block.SetFields from types.go: overwrites nonce and time and recomputes
the body hash from the cached static hash; the static hash is not
recomputed and the transactions are not re-hashed. -/
def Block.SetFields (H : Bytes → Bytes) (timeEnc : Time → Bytes)
    (b : Block) (nonce : Nat) (time : Time) : Block :=
  { body := { b.body with nonce := nonce, time := time }
    bodyHash := calculateBodyHash H timeEnc b.bodyStaticHash nonce time
    bodyStaticHash := b.bodyStaticHash }

/-- bits.LeadingZeros8 from math/bits, tabulated over the byte ranges:
8 minus the bit length of the byte. -/
def leadingZeros8 (b : Nat) : Nat :=
  if 128 ≤ b then 0
  else if 64 ≤ b then 1
  else if 32 ≤ b then 2
  else if 16 ≤ b then 3
  else if 8 ≤ b then 4
  else if 4 ≤ b then 5
  else if 2 ≤ b then 6
  else if 1 ≤ b then 7
  else 8

/-- leadingZeros from node.go: 8 per leading zero byte, plus the leading
zeros of the first nonzero byte. -/
def leadingZeros : Bytes → Nat
  | [] => 0
  | b :: rest => if b = 0 then 8 + leadingZeros rest else leadingZeros8 b

/-- nonceIsValid from node.go. -/
def nonceIsValid (block : Block) : Bool :=
  decide (MinimumRequiredLeadingZeros ≤ leadingZeros block.bodyHash)

/-- One constructor per fmt.Errorf return site of verifyExceptNonce, in
source order.  The two id sites (non-genesis and genesis) are kept
distinct. -/
inductive VErr where
  | versionMismatch
  | idMismatch
  | prevHashMismatch
  | nonMonotonicTimestamp
  | genesisIdMismatch
  | futureTimestamp
  | emptyBlock
  | signatureCountMismatch
  | unknownInput
  | invalidSignature
  | valueMismatch
  | insufficientInputValue
  | coinbaseValueMismatch
deriving DecidableEq

/-- The allTransactions map of verifyExceptNonce: an association list keyed
by bodyHash, newest entry first (a cons shadows older entries, as a Go map
insert overwrites). -/
abbrev Lookup := List (Bytes × Transaction)

/-- Go map indexing: first (most recently inserted) entry with the key. -/
def lookupTx : Lookup → Bytes → Option Transaction
  | [], _ => none
  | (k, t) :: rest, h => if k = h then some t else lookupTx rest h

/-- The two nested loops of verifyExceptNonce that seed allTransactions
with every transaction of every existing block, in order (later inserts
shadow earlier ones). -/
def buildLookup (blocks : List Block) : Lookup :=
  blocks.foldl
    (fun acc block =>
      block.body.transactions.foldl (fun a t => (t.bodyHash, t) :: a) acc)
    []

/-- The inner input loop of verifyExceptNonce for one transaction: walk the
(inputTransactionHash, ownerSignature) pairs, resolve each input in the
lookup, verify the signature over the transaction's bodyHash with
ecdsa.Verify (the V parameter), and accumulate the input's OutputValue into
expectedInputValue with uint32 addition. -/
def sumInputs (V : PubKey → Bytes → OwnerSignature → Bool) (lk : Lookup)
    (txHash : Bytes) :
    List (Bytes × OwnerSignature) → Nat → Except VErr Nat
  | [], acc => .ok acc
  | (h, sig) :: rest, acc =>
    match lookupTx lk h with
    | none => .error .unknownInput
    | some inputTx =>
      if !V inputTx.body.nextOwner txHash sig then .error .invalidSignature
      else sumInputs V lk txHash rest (u32add acc inputTx.OutputValue)

/-- The per-transaction body of the non-coinbase loop of verifyExceptNonce:
signature count check, input resolution and signature checks with
expectedInputValue accumulation, the declared-value check, and the
change-plus-fee check (the sum change + fee is a uint32 addition).  Returns
the transaction's fee on success so the caller can accumulate block fees. -/
def checkTransaction (V : PubKey → Bytes → OwnerSignature → Bool)
    (lk : Lookup) (t : Transaction) : Except VErr Nat :=
  if t.body.inputTransactionHashes.length ≠ t.ownerSignatures.length then
    .error .signatureCountMismatch
  else
    match sumInputs V lk t.bodyHash
        (t.body.inputTransactionHashes.zip t.ownerSignatures) 0 with
    | .error e => .error e
    | .ok expectedInputValue =>
      if expectedInputValue ≠ t.body.inputValue then .error .valueMismatch
      else if t.body.inputValue < u32add t.body.change t.body.fee then
        .error .insufficientInputValue
      else .ok t.body.fee

/-- The non-coinbase transaction loop of verifyExceptNonce: check each
transaction of the tail in order against the growing lookup; on success
insert it into the lookup and add its fee (uint32 addition) to the running
block fee total.  Returns the final lookup and fee total. -/
def processTransactions (V : PubKey → Bytes → OwnerSignature → Bool) :
    List Transaction → Lookup → Nat → Except VErr (Lookup × Nat)
  | [], lk, fees => .ok (lk, fees)
  | t :: rest, lk, fees =>
    match checkTransaction V lk t with
    | .error e => .error e
    | .ok fee => processTransactions V rest ((t.bodyHash, t) :: lk) (u32add fees fee)

/-- The linkage portion of verifyExceptNonce: with a non-empty chain the
candidate's id must be the head block's id plus one (uint32 increment), its
prevHash must equal the head block's bodyHash, and its timestamp must be
strictly after the head block's; with an empty chain the id must be
GenesisId. -/
def linkageCheck (blocks : List Block) (newBlock : Block) : Except VErr Unit :=
  match blocks.getLast? with
  | some headBlock =>
    if newBlock.body.id ≠ u32add headBlock.body.id 1 then .error .idMismatch
    else if newBlock.body.prevHash ≠ headBlock.bodyHash then .error .prevHashMismatch
    else if ¬ (headBlock.body.time < newBlock.body.time) then
      .error .nonMonotonicTimestamp
    else .ok ()
  | none =>
    if newBlock.body.id ≠ GenesisId then .error .genesisIdMismatch
    else .ok ()

/-- verifyExceptNonce from node.go.  V embeds ecdsa.Verify and now embeds
the single time.Now() read. -/
def verifyExceptNonce (V : PubKey → Bytes → OwnerSignature → Bool)
    (now : Time) (blocks : List Block) (newBlock : Block) :
    Except VErr Unit :=
  if newBlock.body.version ≠ CurrentVersion then .error .versionMismatch
  else
    match linkageCheck blocks newBlock with
    | .error e => .error e
    | .ok _ =>
      if now < newBlock.body.time then .error .futureTimestamp
      else
        match newBlock.body.transactions with
        | [] => .error .emptyBlock
        | coinBaseTransaction :: rest =>
          match processTransactions V rest
              ((coinBaseTransaction.bodyHash, coinBaseTransaction) ::
                buildLookup blocks) 0 with
          | .error e => .error e
          | .ok (_, newBlockFees) =>
            if coinBaseTransaction.body.inputValue ≠ u32add newBlockFees MiningReward then
              .error .coinbaseValueMismatch
            else .ok ()

/-- Errors surfaced by Mine: a validation failure passed through unchanged,
or exhaustion of the 32-bit nonce space. -/
inductive MineErr where
  | validation : VErr → MineErr
  | nonceSpaceExhausted
deriving DecidableEq

/-- Result of the nonce search loop.  found and exhausted are the two ways
the Go loop exits (break, and the wrap-around error return); fuelOut is an
artifact of the fuel embedding, proved unreachable when the loop starts at
nonce 0 with fuel 2^32. -/
inductive MineResult where
  | found : Block → MineResult
  | exhausted : MineResult
  | fuelOut : MineResult
deriving DecidableEq

/-- The nonce search loop of Mine from node.go: set the nonce and a fresh
timestamp (clock iter embeds the time.Now() call of iteration iter), test
the difficulty predicate, and on failure increment the nonce as a uint32;
if the increment wraps to 0 the search fails. -/
def mineLoop (H : Bytes → Bytes) (timeEnc : Time → Bytes)
    (clock : Nat → Time) (b : Block) (nonce iter : Nat) :
    Nat → MineResult
  | 0 => .fuelOut
  | fuel + 1 =>
    let b' := b.SetFields H timeEnc nonce (clock iter)
    if nonceIsValid b' then .found b'
    else if (nonce + 1) % U32 = 0 then .exhausted
    else mineLoop H timeEnc clock b' ((nonce + 1) % U32) (iter + 1) fuel

/-- Node.Mine from node.go: build the block (computing its static and full
hashes), validate everything except the nonce, then search the nonce space
from 0 with fuel 2^32 (one unit per loop iteration; the loop is proved to
exit via found or exhausted before the fuel runs out). -/
def Mine (H : Bytes → Bytes) (timeEnc : Time → Bytes)
    (V : PubKey → Bytes → OwnerSignature → Bool) (clock : Nat → Time)
    (now : Time) (blocks : List Block) (newBody : BlockBody) :
    Except MineErr Block :=
  let newBlock := NewBlock H timeEnc newBody
  match verifyExceptNonce V now blocks newBlock with
  | .error e => .error (.validation e)
  | .ok _ =>
    match mineLoop H timeEnc clock newBlock 0 0 U32 with
    | .found b => .ok b
    | .exhausted => .error .nonceSpaceExhausted
    | .fuelOut => .error .nonceSpaceExhausted


/- Concrete instantiations of the abstract cryptographic parameters, used
by the closed evidence theorems below.  hZero is a digest whose first byte
is zero (8 leading zero bits), hOnes a digest whose first byte is 255 (no
leading zero bits). -/

/-- A hash function whose output starts with a zero byte. -/
def hZero : Bytes → Bytes := fun _ => [0]

/-- A hash function whose output starts with byte 255. -/
def hOnes : Bytes → Bytes := fun _ => [255]

/-- A concrete public key encoding. -/
def encPub0 : PubKey → Bytes := fun k => [k % 256]

/-- A concrete timestamp text encoding. -/
def timeEnc0 : Time → Bytes := fun t => [t % 256]

/-- A concrete signing function. -/
def sign0 : PrivKey → Bytes → OwnerSignature := fun _ _ => { R := 0, S := 0 }

/-- A signature verifier that accepts everything (standing in for a run in
which every presented signature happens to be valid, which ecdsa signing
can always realize). -/
def vTrue : PubKey → Bytes → OwnerSignature → Bool := fun _ _ _ => true

/-- SetFields after SetFields overwrites the same fields and recomputes the
body hash from the same cached static hash, so only the last call
matters. -/
theorem SetFields_SetFields (H : Bytes → Bytes) (timeEnc : Time → Bytes)
    (b : Block) (n : Nat) (t : Time) (n' : Nat) (t' : Time) :
    (b.SetFields H timeEnc n t).SetFields H timeEnc n' t'
      = b.SetFields H timeEnc n' t' := rfl

/- ===== Claim C2 ===== -/

/-- The signature list NewTransaction builds is exactly one signature per
signing key over the body hash, no matter what the isCoinbase flag is. -/
theorem NewTransaction_signatures (H : Bytes → Bytes) (encPub : PubKey → Bytes)
    (Sign : PrivKey → Bytes → OwnerSignature) (body : TransactionBody)
    (privs : List PrivKey) (isCoinbase : Bool) :
    (NewTransaction H encPub Sign body privs isCoinbase).ownerSignatures
      = privs.map (fun priv => Sign priv (transactionHash H encPub body)) := rfl

/-- A transaction body used in the C2 counterexample. -/
def c2body : TransactionBody :=
  { inputTransactionHashes := [], nextOwner := 0, inputValue := 10,
    change := 0, fee := 0 }

/-- Claim C2 counterexample: NewTransaction called with isCoinbase = true
and a non-empty signingKeys list returns a transaction whose
ownerSignatures list is non-empty, refuting the claim that no signatures
are produced regardless of the signingKeys argument. -/
theorem c2_coinbase_signs_anyway :
    (NewTransaction hZero encPub0 sign0 c2body [5] true).ownerSignatures ≠ [] := by
  decide

/-- Claim C2 (amended): for every transaction body and every list of
signing keys, NewTransaction signs the body hash once per element of
signingKeys, in order, regardless of the isCoinbase flag; the
ownerSignatures list is empty exactly when signingKeys is empty (the demo
passes nil keys for its coinbase, which is why that coinbase carries no
signatures). -/
theorem c2_signatures_iff_keys (H : Bytes → Bytes) (encPub : PubKey → Bytes)
    (Sign : PrivKey → Bytes → OwnerSignature) (body : TransactionBody)
    (privs : List PrivKey) (isCoinbase : Bool) :
    (NewTransaction H encPub Sign body privs isCoinbase).ownerSignatures
        = privs.map (fun priv => Sign priv (transactionHash H encPub body)) ∧
    ((NewTransaction H encPub Sign body privs isCoinbase).ownerSignatures = []
        ↔ privs = []) := by
  refine ⟨rfl, ?_⟩
  rw [NewTransaction_signatures]
  simp

/- ===== Claim C8 ===== -/

/-- Claim C8: two-phase hashing equivalence.  First conjunct: rebuilding a
block from scratch via NewBlock with nonce and timestamp already set in the
body gives exactly the block that SetFields produces from the cached static
hash.  Second conjunct: the body hash SetFields produces depends on the
block only through its cached static hash, so SetFields never re-hashes the
transaction list. -/
theorem c8_two_phase_hashing (H : Bytes → Bytes) (timeEnc : Time → Bytes)
    (body : BlockBody) (nonce : Nat) (time : Time) :
    ((NewBlock H timeEnc body).SetFields H timeEnc nonce time
        = NewBlock H timeEnc { body with nonce := nonce, time := time }) ∧
    (∀ b b' : Block, b.bodyStaticHash = b'.bodyStaticHash →
      (b.SetFields H timeEnc nonce time).bodyHash
        = (b'.SetFields H timeEnc nonce time).bodyHash) := by
  refine ⟨rfl, ?_⟩
  intro b b' h
  simp [Block.SetFields, h]

/-- A block body used in the C8 witness. -/
def c8body : BlockBody :=
  { version := 1, id := 0, prevHash := [4], transactions := [], nonce := 0,
    time := 0 }

/-- A block with cached static hash [9], used in the C8 witness. -/
def c8blkA : Block :=
  { body := c8body, bodyHash := [1], bodyStaticHash := [9] }

/-- A block with a different body but the same cached static hash [9]. -/
def c8blkB : Block :=
  { body := { c8body with id := 7 }, bodyHash := [2], bodyStaticHash := [9] }

/-- Witness for claim C8 at concrete inputs. -/
theorem c8_two_phase_hashing_witness :
    ((NewBlock hZero timeEnc0 c8body).SetFields hZero timeEnc0 3 5
        = NewBlock hZero timeEnc0 { c8body with nonce := 3, time := 5 }) ∧
    (c8blkA.SetFields hZero timeEnc0 3 5).bodyHash
        = (c8blkB.SetFields hZero timeEnc0 3 5).bodyHash :=
  ⟨(c8_two_phase_hashing hZero timeEnc0 c8body 3 5).1,
   (c8_two_phase_hashing hZero timeEnc0 c8body 3 5).2 c8blkA c8blkB rfl⟩

/- ===== Claim C1 ===== -/

/-- The coinbase of the C1 double-spend block: output value 10. -/
def c1cb : Transaction :=
  { body := { inputTransactionHashes := [], nextOwner := 0, inputValue := 10,
              change := 0, fee := 0 },
    bodyHash := [0], ownerSignatures := [], isCoinbase := true }

/-- First spend of the coinbase: claims its full output value of 10. -/
def c1t1 : Transaction :=
  { body := { inputTransactionHashes := [[0]], nextOwner := 1,
              inputValue := 10, change := 0, fee := 0 },
    bodyHash := [1], ownerSignatures := [{ R := 1, S := 1 }],
    isCoinbase := false }

/-- Second spend of the same coinbase: also claims its full output value of
10, so the two transactions together claim 20 from an output of 10. -/
def c1t2 : Transaction :=
  { body := { inputTransactionHashes := [[0]], nextOwner := 2,
              inputValue := 10, change := 1, fee := 0 },
    bodyHash := [2], ownerSignatures := [{ R := 2, S := 2 }],
    isCoinbase := false }

/-- The C1 candidate block: a genesis block whose two non-coinbase
transactions both spend the same coinbase output. -/
def c1block : Block :=
  { body := { version := 1, id := 0, prevHash := [],
              transactions := [c1cb, c1t1, c1t2], nonce := 0, time := 0 },
    bodyHash := [7], bodyStaticHash := [7] }

/-- Claim C1 evidence: two distinct non-coinbase transactions of the same
candidate block both reference the coinbase transaction hash, their total
claimed input value (20) exceeds that input's output value (10), every
structural check passes, and verifyExceptNonce nevertheless accepts the
block instead of rejecting it with the ValueMismatch error: the declared
value of each transaction is checked against the referenced outputs one
transaction at a time, and nothing records that an output has already been
spent. -/
theorem c1_double_spend_accepted :
    verifyExceptNonce vTrue 0 [] c1block = .ok () ∧
    c1t1 ∈ c1block.body.transactions.tail ∧
    c1t2 ∈ c1block.body.transactions.tail ∧
    c1t1 ≠ c1t2 ∧
    [0] ∈ c1t1.body.inputTransactionHashes ∧
    [0] ∈ c1t2.body.inputTransactionHashes ∧
    c1cb.bodyHash = [0] ∧
    c1cb.OutputValue < c1t1.body.inputValue + c1t2.body.inputValue := by
  decide

/- ===== Validator inversion lemmas ===== -/

/-- A transaction the per-transaction check accepts returns its own fee and
passed the change-plus-fee comparison (a uint32 comparison in the code). -/
theorem checkTransaction_ok (V : PubKey → Bytes → OwnerSignature → Bool)
    (lk : Lookup) (t : Transaction) (fee : Nat)
    (h : checkTransaction V lk t = .ok fee) :
    fee = t.body.fee ∧
    ¬ t.body.inputValue < u32add t.body.change t.body.fee := by
  unfold checkTransaction at h
  split at h
  · exact absurd h (by simp)
  · split at h
    · exact absurd h (by simp)
    · split at h
      · exact absurd h (by simp)
      · split at h
        · exact absurd h (by simp)
        · simp only [Except.ok.injEq] at h
          exact ⟨h.symm, by assumption⟩

/-- When the non-coinbase loop accepts a transaction list, the returned fee
total is the uint32 fold of the fees, and every transaction of the list
passed the change-plus-fee comparison. -/
theorem processTransactions_ok (V : PubKey → Bytes → OwnerSignature → Bool) :
    ∀ (txs : List Transaction) (lk : Lookup) (fees : Nat) (lk' : Lookup) (f : Nat),
      processTransactions V txs lk fees = .ok (lk', f) →
      f = txs.foldl (fun acc t => u32add acc t.body.fee) fees ∧
      ∀ t ∈ txs, ¬ t.body.inputValue < u32add t.body.change t.body.fee := by
  intro txs
  induction txs with
  | nil =>
    intro lk fees lk' f h
    simp only [processTransactions, Except.ok.injEq, Prod.mk.injEq] at h
    exact ⟨h.2.symm, by simp⟩
  | cons t rest ih =>
    intro lk fees lk' f h
    simp only [processTransactions] at h
    split at h
    · exact absurd h (by simp)
    · rename_i fee hc
      obtain ⟨hfee, hcf⟩ := checkTransaction_ok V lk t fee hc
      obtain ⟨h1, h2⟩ := ih _ _ _ _ h
      refine ⟨?_, ?_⟩
      · rw [h1, hfee]
        simp [List.foldl]
      · intro t' ht'
        rcases List.mem_cons.mp ht' with rfl | hmem
        · exact hcf
        · exact h2 t' hmem

/-- Inversion of an accepting run of verifyExceptNonce: every check along
the accepting path passed, and the accepting path fixes the coinbase, the
transaction tail, the lookup seed and the fee total. -/
theorem verify_ok_inversion (V : PubKey → Bytes → OwnerSignature → Bool)
    (now : Time) (blocks : List Block) (nb : Block)
    (h : verifyExceptNonce V now blocks nb = .ok ()) :
    nb.body.version = CurrentVersion ∧
    linkageCheck blocks nb = .ok () ∧
    ¬ now < nb.body.time ∧
    ∃ cb rest lk f,
      nb.body.transactions = cb :: rest ∧
      processTransactions V rest ((cb.bodyHash, cb) :: buildLookup blocks) 0
        = .ok (lk, f) ∧
      cb.body.inputValue = u32add f MiningReward := by
  unfold verifyExceptNonce at h
  split at h
  · exact absurd h (by simp)
  · rename_i hver
    push_neg at hver
    split at h
    · exact absurd h (by simp)
    · rename_i u hlink
      cases u
      split at h
      · exact absurd h (by simp)
      · rename_i htime
        split at h
        · exact absurd h (by simp)
        · rename_i cb rest htx
          split at h
          · exact absurd h (by simp)
          · rename_i lk f hp
            split at h
            · exact absurd h (by simp)
            · rename_i hcb
              push_neg at hcb
              exact ⟨hver, hlink, htime, cb, rest, lk, f, htx, hp, hcb⟩

/- ===== Claim C6 ===== -/

/-- Claim C6 (amended): with the version check passed, an empty chain
rejects any candidate whose id is not 0, and a non-empty chain rejects any
candidate whose id is not the uint32 increment of the tip's id, tip.id + 1
mod 2^32; in particular a candidate with id 0 is rejected on a non-empty
chain except when tip.id = 2^32 - 1, where the increment wraps to 0.  Both
id checks fire with the candidate's transaction list left completely
unconstrained, so they run before the transaction checks. -/
theorem c6_id_checks (V : PubKey → Bytes → OwnerSignature → Bool)
    (now : Time) (blocks : List Block) (nb : Block)
    (hver : nb.body.version = CurrentVersion) :
    (blocks = [] → nb.body.id ≠ GenesisId →
        verifyExceptNonce V now blocks nb = .error .genesisIdMismatch) ∧
    (∀ tip, blocks.getLast? = some tip →
        nb.body.id ≠ u32add tip.body.id 1 →
        verifyExceptNonce V now blocks nb = .error .idMismatch) := by
  constructor
  · intro hb hid
    subst hb
    simp [verifyExceptNonce, linkageCheck, hver, hid]
  · intro tip hlast hid
    simp [verifyExceptNonce, linkageCheck, hver, hlast, hid]

/-- A candidate with id 5 and an empty transaction list, for the C6
witness: the id error fires before the transaction checks get a say. -/
def c6cand : Block :=
  { body := { version := 1, id := 5, prevHash := [], transactions := [],
              nonce := 0, time := 0 },
    bodyHash := [1], bodyStaticHash := [1] }

/-- A tip block with id 0, for the C6 witness. -/
def c6tip : Block :=
  { body := { version := 1, id := 0, prevHash := [], transactions := [],
              nonce := 0, time := 0 },
    bodyHash := [2], bodyStaticHash := [2] }

/-- Witness for claim C6 at concrete inputs: id 5 is rejected against an
empty chain and against a chain whose tip has id 0. -/
theorem c6_id_checks_witness :
    verifyExceptNonce vTrue 0 [] c6cand = .error .genesisIdMismatch ∧
    verifyExceptNonce vTrue 0 [c6tip] c6cand = .error .idMismatch :=
  ⟨(c6_id_checks vTrue 0 [] c6cand rfl).1 rfl (by decide),
   (c6_id_checks vTrue 0 [c6tip] c6cand rfl).2 c6tip rfl (by decide)⟩

/-- A tip block whose uint32 id is the maximum value 2^32 - 1. -/
def c6wrapTip : Block :=
  { body := { version := 1, id := 4294967295, prevHash := [],
              transactions := [], nonce := 0, time := 0 },
    bodyHash := [3], bodyStaticHash := [3] }

/-- A well-formed coinbase carrying exactly the mining reward. -/
def c6wrapCb : Transaction :=
  { body := { inputTransactionHashes := [], nextOwner := 0, inputValue := 10,
              change := 0, fee := 0 },
    bodyHash := [4], ownerSignatures := [], isCoinbase := true }

/-- A candidate with id 0 linked to the maximum-id tip. -/
def c6wrapCand : Block :=
  { body := { version := 1, id := 0, prevHash := [3],
              transactions := [c6wrapCb], nonce := 0, time := 1 },
    bodyHash := [5], bodyStaticHash := [5] }

/-- Claim C6 counterexample: against the non-empty chain whose tip has id
2^32 - 1, a candidate with id 0 is not rejected: the uint32 increment
tip.id + 1 wraps to 0 and the candidate passes all checks.  This refutes
the claim's parenthetical that a candidate with id 0 is always rejected
when the chain is non-empty. -/
theorem c6_wraparound_id_accepted :
    ([c6wrapTip] : List Block) ≠ [] ∧
    c6wrapCand.body.id = 0 ∧
    verifyExceptNonce vTrue 1 [c6wrapTip] c6wrapCand = .ok () := by
  decide

/- ===== Claim C7 ===== -/

/-- The coinbase of the C7 counterexample block: output value 11 (reward 10
plus the fee 1 of the other transaction). -/
def c7cb : Transaction :=
  { body := { inputTransactionHashes := [], nextOwner := 0, inputValue := 11,
              change := 0, fee := 0 },
    bodyHash := [0], ownerSignatures := [], isCoinbase := true }

/-- A transaction whose change + fee is 2^32 - 1 + 1 = 2^32: the uint32 sum
wraps to 0, so the code's comparison inputValue < change + fee sees
11 < 0 and passes, although 11 < 2^32 in exact arithmetic. -/
def c7t : Transaction :=
  { body := { inputTransactionHashes := [[0]], nextOwner := 1,
              inputValue := 11, change := 4294967295, fee := 1 },
    bodyHash := [1], ownerSignatures := [{ R := 0, S := 1 }],
    isCoinbase := false }

/-- The C7 counterexample block. -/
def c7block : Block :=
  { body := { version := 1, id := 0, prevHash := [],
              transactions := [c7cb, c7t], nonce := 0, time := 0 },
    bodyHash := [6], bodyStaticHash := [6] }

/-- Claim C7 counterexample: verifyExceptNonce accepts a block containing a
non-coinbase transaction with inputValue 11, change 2^32 - 1 and fee 1, for
which the exact inequality inputValue >= change + fee is false: the code's
32-bit sum change + fee wraps to 0, so the InsufficientInputValue check
passes and OutputValue underflows modulo 2^32. -/
theorem c7_exact_bound_fails :
    verifyExceptNonce vTrue 0 [] c7block = .ok () ∧
    c7t ∈ c7block.body.transactions.tail ∧
    c7t.body.inputValue < c7t.body.change + c7t.body.fee := by
  decide

/-- Claim C7 (amended): for every non-coinbase transaction t of a candidate
that verifyExceptNonce accepts, t.inputValue >= (t.change + t.fee) mod 2^32
holds, the comparison the code actually performs in 32-bit unsigned
arithmetic; the unbounded inequality t.inputValue >= t.change + t.fee can
fail for accepted transactions when change + fee overflows uint32, in
which case OutputValue wraps modulo 2^32. -/
theorem c7_change_fee_u32_bound (V : PubKey → Bytes → OwnerSignature → Bool)
    (now : Time) (blocks : List Block) (nb : Block)
    (h : verifyExceptNonce V now blocks nb = .ok ()) :
    ∀ t ∈ nb.body.transactions.tail,
      u32add t.body.change t.body.fee ≤ t.body.inputValue := by
  obtain ⟨-, -, -, cb, rest, lk, f, htx, hp, -⟩ :=
    verify_ok_inversion V now blocks nb h
  intro t ht
  rw [htx] at ht
  exact Nat.le_of_not_lt ((processTransactions_ok V rest _ 0 lk f hp).2 t ht)

/-- Coinbase of the accepting block used in the C7 witness. -/
def c7wcb : Transaction :=
  { body := { inputTransactionHashes := [], nextOwner := 0, inputValue := 10,
              change := 0, fee := 0 },
    bodyHash := [0], ownerSignatures := [], isCoinbase := true }

/-- Spending transaction of the accepting block used in the C7 witness. -/
def c7wt : Transaction :=
  { body := { inputTransactionHashes := [[0]], nextOwner := 1,
              inputValue := 10, change := 5, fee := 0 },
    bodyHash := [1], ownerSignatures := [{ R := 2, S := 2 }],
    isCoinbase := false }

/-- The accepting block used in the C7 witness. -/
def c7wblock : Block :=
  { body := { version := 1, id := 0, prevHash := [],
              transactions := [c7wcb, c7wt], nonce := 0, time := 0 },
    bodyHash := [6], bodyStaticHash := [6] }

/-- Witness for the amended claim C7 at concrete inputs. -/
theorem c7_change_fee_u32_bound_witness :
    verifyExceptNonce vTrue 0 [] c7wblock = .ok () ∧
    c7wt ∈ c7wblock.body.transactions.tail ∧
    u32add c7wt.body.change c7wt.body.fee ≤ c7wt.body.inputValue :=
  ⟨by decide, by decide,
   c7_change_fee_u32_bound vTrue 0 [] c7wblock (by decide) c7wt (by decide)⟩

/- ===== Claim C5 ===== -/

/-- Claim C5: coinbase accounting.  For a candidate that has passed the
version, linkage, timestamp and non-emptiness checks and whose non-coinbase
transactions all validate (producing the fee total f), the fee total is the
uint32 fold of the tail's fees, and verifyExceptNonce accepts exactly when
the first transaction's inputValue equals f + MiningReward (a uint32 sum),
rejecting every other value with the CoinbaseValueMismatch error. -/
theorem c5_coinbase_accounting (V : PubKey → Bytes → OwnerSignature → Bool)
    (now : Time) (blocks : List Block) (nb : Block) (cb : Transaction)
    (rest : List Transaction) (lk : Lookup) (f : Nat)
    (hver : nb.body.version = CurrentVersion)
    (hlink : linkageCheck blocks nb = .ok ())
    (htime : ¬ now < nb.body.time)
    (htxs : nb.body.transactions = cb :: rest)
    (hproc : processTransactions V rest ((cb.bodyHash, cb) :: buildLookup blocks) 0
      = .ok (lk, f)) :
    f = rest.foldl (fun acc t => u32add acc t.body.fee) 0 ∧
    verifyExceptNonce V now blocks nb =
      (if cb.body.inputValue = u32add f MiningReward then .ok ()
       else .error .coinbaseValueMismatch) := by
  refine ⟨(processTransactions_ok V rest _ 0 lk f hproc).1, ?_⟩
  simp [verifyExceptNonce, hver, hlink, htxs, hproc, htime]

/-- The coinbase of the C5 witness block: inputValue 11, one more than the
fee total 0 plus the mining reward 10. -/
def c5cb : Transaction :=
  { body := { inputTransactionHashes := [], nextOwner := 0, inputValue := 11,
              change := 0, fee := 0 },
    bodyHash := [0], ownerSignatures := [], isCoinbase := true }

/-- The C5 witness candidate: a genesis block carrying only c5cb. -/
def c5cand : Block :=
  { body := { version := 1, id := 0, prevHash := [], transactions := [c5cb],
              nonce := 0, time := 0 },
    bodyHash := [1], bodyStaticHash := [1] }

/-- The lookup the C5 witness run ends with. -/
def c5lk : Lookup := [(c5cb.bodyHash, c5cb)]

/-- Witness for claim C5 at concrete inputs: the off-by-one coinbase value
11 lands in the else branch, the CoinbaseValueMismatch rejection. -/
theorem c5_coinbase_accounting_witness :
    (0 : Nat) = ([] : List Transaction).foldl (fun acc t => u32add acc t.body.fee) 0 ∧
    verifyExceptNonce vTrue 0 [] c5cand =
      (if c5cb.body.inputValue = u32add 0 MiningReward then Except.ok ()
       else Except.error VErr.coinbaseValueMismatch) :=
  c5_coinbase_accounting vTrue 0 [] c5cand c5cb [] c5lk 0 rfl rfl (by decide)
    rfl rfl

/- ===== Claim C10 ===== -/

/-- Claim C10: the validator never inspects the structure of the first
transaction.  The first transaction is given here by its four raw
components, and neither its inputTransactionHashes, nor its
ownerSignatures, nor its isCoinbase flag is constrained: whenever the
block-level checks pass, every later transaction validates against the
lookup seeded with it (producing fee total f), and its inputValue equals
f + MiningReward, verifyExceptNonce accepts the candidate. -/
theorem c10_coinbase_not_inspected (V : PubKey → Bytes → OwnerSignature → Bool)
    (now : Time) (blocks : List Block) (nb : Block)
    (cbBody : TransactionBody) (cbHash : Bytes)
    (cbSigs : List OwnerSignature) (cbFlag : Bool)
    (rest : List Transaction) (lk : Lookup) (f : Nat)
    (hver : nb.body.version = CurrentVersion)
    (hlink : linkageCheck blocks nb = .ok ())
    (htime : ¬ now < nb.body.time)
    (htxs : nb.body.transactions = Transaction.mk cbBody cbHash cbSigs cbFlag :: rest)
    (hproc : processTransactions V rest
        ((cbHash, Transaction.mk cbBody cbHash cbSigs cbFlag) :: buildLookup blocks) 0
      = .ok (lk, f))
    (hcb : cbBody.inputValue = u32add f MiningReward) :
    verifyExceptNonce V now blocks nb = .ok () := by
  simp [verifyExceptNonce, hver, hlink, htxs, hproc, htime, hcb]

/-- The first transaction of the C10 witness block: it carries an input
hash, a signature, and is not flagged as coinbase, yet sits in the coinbase
position. -/
def c10first : Transaction :=
  { body := { inputTransactionHashes := [[9]], nextOwner := 0,
              inputValue := 10, change := 0, fee := 0 },
    bodyHash := [0], ownerSignatures := [{ R := 1, S := 1 }],
    isCoinbase := false }

/-- A transaction spending c10first (whose output value is computed by the
non-coinbase branch of OutputValue, because its flag is false). -/
def c10t : Transaction :=
  { body := { inputTransactionHashes := [[0]], nextOwner := 1,
              inputValue := 10, change := 5, fee := 0 },
    bodyHash := [1], ownerSignatures := [{ R := 2, S := 2 }],
    isCoinbase := false }

/-- The C10 witness candidate block. -/
def c10cand : Block :=
  { body := { version := 1, id := 0, prevHash := [],
              transactions := [c10first, c10t], nonce := 0, time := 0 },
    bodyHash := [2], bodyStaticHash := [2] }

/-- The lookup the C10 witness run ends with. -/
def c10lk : Lookup :=
  [(c10t.bodyHash, c10t), (c10first.bodyHash, c10first)]

/-- Witness for claim C10 at concrete inputs: the first transaction has a
non-empty input list, a non-empty signature list and a false coinbase flag,
and the candidate is still accepted. -/
theorem c10_coinbase_not_inspected_witness :
    c10first.body.inputTransactionHashes ≠ [] ∧
    c10first.ownerSignatures ≠ [] ∧
    c10first.isCoinbase = false ∧
    verifyExceptNonce vTrue 0 [] c10cand = .ok () :=
  ⟨by decide, by decide, rfl,
   c10_coinbase_not_inspected vTrue 0 [] c10cand
     { inputTransactionHashes := [[9]], nextOwner := 0, inputValue := 10,
       change := 0, fee := 0 }
     [0] [{ R := 1, S := 1 }] false [c10t] c10lk 0
     rfl rfl (by decide) rfl (by decide) rfl⟩

/- ===== Mining loop lemmas ===== -/

/-- Any block the nonce search returns satisfies the difficulty predicate,
keeps the static hash of the block the search started from, and carries the
full hash recomputed from that static hash and its own stored nonce and
timestamp. -/
theorem mineLoop_found_props (H : Bytes → Bytes) (timeEnc : Time → Bytes)
    (clock : Nat → Time) :
    ∀ (fuel nonce iter : Nat) (b bb : Block),
      mineLoop H timeEnc clock b nonce iter fuel = .found bb →
      nonceIsValid bb = true ∧
      bb.bodyStaticHash = b.bodyStaticHash ∧
      bb.bodyHash = calculateBodyHash H timeEnc b.bodyStaticHash
        bb.body.nonce bb.body.time := by
  intro fuel
  induction fuel with
  | zero =>
    intro nonce iter b bb h
    exact absurd h (by simp [mineLoop])
  | succ f ih =>
    intro nonce iter b bb h
    simp only [mineLoop] at h
    split at h
    · rename_i hv
      simp only [MineResult.found.injEq] at h
      subst h
      exact ⟨hv, rfl, rfl⟩
    · split at h
      · exact absurd h (by simp)
      · have h3 := ih ((nonce + 1) % U32) (iter + 1)
          (b.SetFields H timeEnc nonce (clock iter)) bb h
        exact ⟨h3.1, h3.2.1, h3.2.2⟩

/-- With fuel at least the distance from the current nonce to the end of
the 32-bit nonce space, the nonce search never runs out of fuel: the
wrap-around exit fires first.  Hence the fuelOut result is an artifact of
the embedding, unreachable from Mine. -/
theorem mineLoop_ne_fuelOut (H : Bytes → Bytes) (timeEnc : Time → Bytes)
    (clock : Nat → Time) :
    ∀ (fuel nonce iter : Nat) (b : Block), nonce < U32 → U32 ≤ fuel + nonce →
      mineLoop H timeEnc clock b nonce iter fuel ≠ .fuelOut := by
  intro fuel
  induction fuel with
  | zero =>
    intro nonce iter b h1 h2
    exact absurd h1 (by omega)
  | succ f ih =>
    intro nonce iter b h1 h2
    simp only [mineLoop]
    split
    · simp
    · split
      · simp
      · rename_i hv hw
        have hlt : nonce + 1 < U32 := by
          rcases Nat.lt_or_ge (nonce + 1) U32 with hc | hc
          · exact hc
          · have he : nonce + 1 = U32 := by omega
            rw [he, Nat.mod_self] at hw
            exact absurd rfl hw
        rw [Nat.mod_eq_of_lt hlt]
        exact ih (nonce + 1) (iter + 1) _ hlt (by omega)

/-- If every nonce of the 32-bit space fails the difficulty predicate on
the block being mined, the nonce search ends in the wrap-around exit (or,
for insufficient fuel, in the fuel artifact). -/
theorem mineLoop_all_fail (H : Bytes → Bytes) (timeEnc : Time → Bytes)
    (clock : Nat → Time) (b0 : Block)
    (hAll : ∀ j, j < U32 →
      nonceIsValid (b0.SetFields H timeEnc j (clock j)) = false) :
    ∀ (fuel nonce : Nat) (b : Block),
      nonce < U32 →
      (∀ m t, b.SetFields H timeEnc m t = b0.SetFields H timeEnc m t) →
      mineLoop H timeEnc clock b nonce nonce fuel = .exhausted ∨
      mineLoop H timeEnc clock b nonce nonce fuel = .fuelOut := by
  intro fuel
  induction fuel with
  | zero =>
    intro nonce b h1 hS
    right
    rfl
  | succ f ih =>
    intro nonce b h1 hS
    simp only [mineLoop]
    rw [hS nonce (clock nonce), hAll nonce h1]
    rw [if_neg (by simp)]
    split
    · left
      rfl
    · rename_i hw
      have hlt : nonce + 1 < U32 := by
        rcases Nat.lt_or_ge (nonce + 1) U32 with hc | hc
        · exact hc
        · have he : nonce + 1 = U32 := by omega
          rw [he, Nat.mod_self] at hw
          exact absurd rfl hw
      rw [Nat.mod_eq_of_lt hlt]
      exact ih (nonce + 1) _ hlt
        (fun m t => SetFields_SetFields H timeEnc b0 nonce (clock nonce) m t)

/- ===== Claim C3 ===== -/

/-- Claim C3: whenever Mine returns a block without error, that block's
full hash meets the difficulty threshold, and that hash is exactly the
digest of (cached static hash, stored nonce, stored timestamp); the cached
static hash is the static hash of the mined body. -/
theorem c3_mine_meets_difficulty (H : Bytes → Bytes) (timeEnc : Time → Bytes)
    (V : PubKey → Bytes → OwnerSignature → Bool) (clock : Nat → Time)
    (now : Time) (blocks : List Block) (newBody : BlockBody) (b : Block)
    (h : Mine H timeEnc V clock now blocks newBody = .ok b) :
    MinimumRequiredLeadingZeros ≤ leadingZeros b.bodyHash ∧
    b.bodyHash = calculateBodyHash H timeEnc b.bodyStaticHash
      b.body.nonce b.body.time ∧
    b.bodyStaticHash = newBody.staticHash H := by
  simp only [Mine] at h
  split at h
  · exact absurd h (by simp)
  · split at h
    · rename_i bb hm
      simp only [Except.ok.injEq] at h
      subst h
      obtain ⟨h1, h2, h3⟩ := mineLoop_found_props H timeEnc clock U32 0 0 _ bb hm
      refine ⟨?_, ?_, ?_⟩
      · simp only [nonceIsValid, decide_eq_true_eq] at h1
        exact h1
      · rw [h2]
        exact h3
      · exact h2.trans rfl
    · exact absurd h (by simp)
    · exact absurd h (by simp)

/-- The coinbase of the C3 witness body. -/
def c3cb : Transaction :=
  { body := { inputTransactionHashes := [], nextOwner := 0, inputValue := 10,
              change := 0, fee := 0 },
    bodyHash := [0], ownerSignatures := [], isCoinbase := true }

/-- The C3 witness body: a valid genesis body. -/
def c3body : BlockBody :=
  { version := 1, id := 0, prevHash := [], transactions := [c3cb],
    nonce := 0, time := 0 }

/-- The clock used by the C3 witness run. -/
def c3clock : Nat → Time := fun _ => 0

/-- The block the C3 witness run mines: nonce 0 already satisfies the
difficulty predicate under hZero. -/
def c3mined : Block :=
  (NewBlock hZero timeEnc0 c3body).SetFields hZero timeEnc0 0 0

/-- Witness for claim C3 at concrete inputs. -/
theorem c3_mine_meets_difficulty_witness :
    Mine hZero timeEnc0 vTrue c3clock 0 [] c3body = .ok c3mined ∧
    (MinimumRequiredLeadingZeros ≤ leadingZeros c3mined.bodyHash ∧
     c3mined.bodyHash = calculateBodyHash hZero timeEnc0 c3mined.bodyStaticHash
       c3mined.body.nonce c3mined.body.time ∧
     c3mined.bodyStaticHash = c3body.staticHash hZero) :=
  ⟨by decide,
   c3_mine_meets_difficulty hZero timeEnc0 vTrue c3clock 0 [] c3body c3mined
     (by decide)⟩

/- ===== Claim C4 ===== -/

/-- Claim C4: Mine terminates on every input.  First conjunct: starting at
nonce 0 with fuel 2^32 (one unit per loop iteration, so at most 2^32
difficulty trials), the search never ends in the fuel artifact: the Go
loop's own wrap-around exit always fires first.  Second conjunct: if the
candidate validates and no sampled (nonce, timestamp) pair meets the
difficulty predicate, Mine returns the NonceSpaceExhausted error rather
than looping forever. -/
theorem c4_mine_terminates (H : Bytes → Bytes) (timeEnc : Time → Bytes)
    (V : PubKey → Bytes → OwnerSignature → Bool) (clock : Nat → Time)
    (now : Time) (blocks : List Block) (newBody : BlockBody) :
    mineLoop H timeEnc clock (NewBlock H timeEnc newBody) 0 0 U32 ≠ .fuelOut ∧
    (verifyExceptNonce V now blocks (NewBlock H timeEnc newBody) = .ok () →
     (∀ j, j < U32 →
        nonceIsValid ((NewBlock H timeEnc newBody).SetFields H timeEnc j (clock j))
          = false) →
     Mine H timeEnc V clock now blocks newBody = .error .nonceSpaceExhausted) := by
  constructor
  · exact mineLoop_ne_fuelOut H timeEnc clock U32 0 0 _ (by norm_num [U32]) (by omega)
  · intro hv hAll
    simp only [Mine, hv]
    rcases mineLoop_all_fail H timeEnc clock (NewBlock H timeEnc newBody) hAll
        U32 0 _ (by norm_num [U32]) (fun m t => rfl) with hcase | hcase
    · rw [hcase]
    · rw [hcase]

/-- The coinbase of the C4 witness body. -/
def c4cb : Transaction :=
  { body := { inputTransactionHashes := [], nextOwner := 0, inputValue := 10,
              change := 0, fee := 0 },
    bodyHash := [0], ownerSignatures := [], isCoinbase := true }

/-- The C4 witness body: a valid genesis body mined under hOnes, for which
every difficulty trial fails. -/
def c4body : BlockBody :=
  { version := 1, id := 0, prevHash := [], transactions := [c4cb],
    nonce := 0, time := 0 }

/-- The clock used by the C4 witness run. -/
def c4clock : Nat → Time := fun _ => 0

/-- Witness for claim C4 at concrete inputs: under hOnes every hash starts
with byte 255, no trial succeeds, and Mine reports nonce-space
exhaustion. -/
theorem c4_mine_terminates_witness :
    verifyExceptNonce vTrue 0 [] (NewBlock hOnes timeEnc0 c4body) = .ok () ∧
    Mine hOnes timeEnc0 vTrue c4clock 0 [] c4body
      = .error .nonceSpaceExhausted :=
  ⟨by decide,
   (c4_mine_terminates hOnes timeEnc0 vTrue c4clock 0 [] c4body).2 (by decide)
     (fun j hj => rfl)⟩

/- ===== Claim C9 ===== -/

/-- The validator's Go inputs are pointers: the blocks slice and the
candidate block.  To make mutation observable in the embedding, this
mutable environment is threaded explicitly through a second,
statement-by-statement translation of verifyExceptNonce; every Go statement
that could write through those pointers would show up here as a changed
environment in the returned pair. -/
abbrev VerifyState := List Block × Block

/-- State-threaded translation of the non-coinbase transaction loop. -/
def processTransactionsSt (V : PubKey → Bytes → OwnerSignature → Bool) :
    List Transaction → Lookup → Nat → VerifyState →
    Except VErr (Lookup × Nat) × VerifyState
  | [], lk, fees, st => (.ok (lk, fees), st)
  | t :: rest, lk, fees, st =>
    match checkTransaction V lk t with
    | .error e => (.error e, st)
    | .ok fee =>
      processTransactionsSt V rest ((t.bodyHash, t) :: lk) (u32add fees fee) st

/-- State-threaded translation of verifyExceptNonce: identical checks in
identical order, with the pointed-to environment passed along every
statement and returned alongside the verdict. -/
def verifyExceptNonceSt (V : PubKey → Bytes → OwnerSignature → Bool)
    (now : Time) (st : VerifyState) : Except VErr Unit × VerifyState :=
  if st.2.body.version ≠ CurrentVersion then (.error .versionMismatch, st)
  else
    match linkageCheck st.1 st.2 with
    | .error e => (.error e, st)
    | .ok _ =>
      if now < st.2.body.time then (.error .futureTimestamp, st)
      else
        match st.2.body.transactions with
        | [] => (.error .emptyBlock, st)
        | coinBaseTransaction :: rest =>
          match processTransactionsSt V rest
              ((coinBaseTransaction.bodyHash, coinBaseTransaction) ::
                buildLookup st.1) 0 st with
          | (.error e, st') => (.error e, st')
          | (.ok (_, newBlockFees), st') =>
            if coinBaseTransaction.body.inputValue
                ≠ u32add newBlockFees MiningReward then
              (.error .coinbaseValueMismatch, st')
            else (.ok (), st')

/-- The transaction loop returns its environment untouched and computes the
same verdict as the pure loop. -/
theorem processTransactionsSt_eq (V : PubKey → Bytes → OwnerSignature → Bool) :
    ∀ (txs : List Transaction) (lk : Lookup) (fees : Nat) (st : VerifyState),
      processTransactionsSt V txs lk fees st
        = (processTransactions V txs lk fees, st) := by
  intro txs
  induction txs with
  | nil =>
    intro lk fees st
    rfl
  | cons t rest ih =>
    intro lk fees st
    simp only [processTransactionsSt, processTransactions]
    split
    · rfl
    · exact ih _ _ st

/-- Claim C9: validation is side-effect-free.  On every chain and
candidate, the state-threaded translation of verifyExceptNonce returns the
blocks list and the candidate block exactly as it received them, together
with the same verdict as the pure verifyExceptNonce: the validator only
inspects its inputs (building a local transaction lookup) and never mutates
them, whether it accepts or rejects. -/
theorem c9_verify_is_effect_free (V : PubKey → Bytes → OwnerSignature → Bool)
    (now : Time) (blocks : List Block) (newBlock : Block) :
    verifyExceptNonceSt V now (blocks, newBlock)
      = (verifyExceptNonce V now blocks newBlock, (blocks, newBlock)) := by
  simp only [verifyExceptNonceSt, verifyExceptNonce]
  split
  · rfl
  · split
    · rfl
    · split
      · rfl
      · split
        · rfl
        · rename_i cb rest
          rw [processTransactionsSt_eq]
          split
          · rename_i e st' heq
            simp only [Prod.mk.injEq] at heq
            simp only [heq.1, ← heq.2]
          · rename_i l f st' heq
            simp only [Prod.mk.injEq] at heq
            simp only [heq.1, ← heq.2]
            split
            · rename_i hP
              simp only [if_pos hP]
            · rename_i hP
              simp only [if_neg hP]

end GoCoin
